import Mathlib

/-!
Verification of the maritime-salinity ESP32 LoRa telemetry link.

The development shallowly embeds the two C translation units of the
repository (the deep-sleep TDS transmitter and the Wi-Fi/ThingSpeak
receiver).  Machine floats are modelled as exact rationals, C strings as
`List Char`, and the FreeRTOS tick clock as natural-number milliseconds.
-/

/-! ## Payload codec, receive side

Model of `parse_payload` in `receptor_s/main/main.c` and of the C library
function `strtof` that it calls.  `strtof` is modelled on its decimal
forms: optional leading whitespace, optional sign, integer digits,
optional fraction, optional exponent.  (The hexadecimal, infinity and NaN
forms accepted by some C libraries are not modelled.)  When no conversion
can be performed `strtof` returns 0 and leaves the end pointer at the
start of the input, which the model renders by returning the whole input
as the rest. -/

/-- Characters accepted by C `isspace`, which `strtof` skips. -/
def cIsSpace (c : Char) : Bool :=
  c == ' ' || c == '\t' || c == '\n' || c == '\x0b' || c == '\x0c' || c == '\r'

/-- Leading-whitespace skipping done by `strtof`. -/
def skipSpaces (s : List Char) : List Char := s.dropWhile cIsSpace

/-- Numeric value of a digit character. -/
def digitVal (c : Char) : Nat := c.toNat - 48

/-- Consume the maximal digit prefix; returns (value, digit count, rest). -/
def scanDigits : List Char → Nat × Nat × List Char
  | [] => (0, 0, [])
  | c :: cs =>
    if c.isDigit then
      match scanDigits cs with
      | (v, k, r) => (digitVal c * 10 ^ k + v, k + 1, r)
    else (0, 0, c :: cs)

/-- Optional sign in front of the mantissa. -/
def strtofSign (t : List Char) : ℚ × List Char :=
  match t with
  | [] => (1, [])
  | c :: r => if c = '-' then (-1, r) else if c = '+' then (1, r) else (1, c :: r)

/-- Optional sign in front of the exponent; `true` means negative. -/
def strtofSignE (t : List Char) : Bool × List Char :=
  match t with
  | [] => (false, [])
  | c :: r => if c = '-' then (true, r) else if c = '+' then (false, r) else (false, c :: r)

/-- Exponent part after an `e` or `E` marker: a sign and at least one digit
must follow, otherwise the marker itself is not consumed (`orig` is the
rest as it stood before the marker). -/
def strtofExpAux (mant : ℚ) (orig r3 : List Char) : ℚ × List Char :=
  match strtofSignE r3 with
  | (neg, r4) =>
    match scanDigits r4 with
    | (e, k, r5) =>
      if k = 0 then (mant, orig)
      else if neg then (mant / 10 ^ e, r5) else (mant * 10 ^ e, r5)

/-- Optional exponent following the mantissa. -/
def strtofExp (mant : ℚ) (r2 : List Char) : ℚ × List Char :=
  match r2 with
  | [] => (mant, [])
  | c :: r3 =>
    if c = 'e' ∨ c = 'E' then strtofExpAux mant (c :: r3) r3 else (mant, c :: r3)

/-- Model of C `strtof` (decimal forms): returns the parsed value and the
rest of the string starting at the end pointer. -/
def strtof (s : List Char) : ℚ × List Char :=
  match strtofSign (skipSpaces s) with
  | (sgn, u) =>
    match scanDigits u with
    | (ival, icount, r1) =>
      match r1 with
      | c :: rf =>
        if c = '.' then
          match scanDigits rf with
          | (fval, fcount, r2) =>
            if icount + fcount = 0 then (0, s)
            else strtofExp (sgn * ((ival : ℚ) + (fval : ℚ) / 10 ^ fcount)) r2
        else if icount = 0 then (0, s) else strtofExp (sgn * (ival : ℚ)) (c :: rf)
      | [] => if icount = 0 then (0, s) else strtofExp (sgn * (ival : ℚ)) []

/-- Model of `parse_payload`: checks the `TD,` prefix with `strncmp`, reads
the ppm field with `strtof`, requires a comma at the resulting end
pointer, then reads the voltage field with `strtof` and a null end
pointer.  Success yields the two parsed numbers. -/
def parse_payload (s : List Char) : Option (ℚ × ℚ) :=
  if s.take 3 = ['T', 'D', ','] then
    match strtof (s.drop 3) with
    | (ppm, e) =>
      match e with
      | c :: rest => if c = ',' then some (ppm, (strtof rest).1) else none
      | [] => none
  else none

/-- Out-parameter-level model of `parse_payload`: `tds0` and `v0` are the
contents of the caller's `*out_tds` and `*out_v` before the call, and the
result carries the return value together with the final contents of the
two locations.  In the C source the stores to `*out_tds` and `*out_v`
happen only immediately before `return true`, so both failure paths leave
the locations untouched. -/
def parse_payload_c (s : List Char) (tds0 v0 : ℚ) : Bool × ℚ × ℚ :=
  if s.take 3 = ['T', 'D', ','] then
    match strtof (s.drop 3) with
    | (ppm, e) =>
      match e with
      | c :: rest => if c = ',' then (true, ppm, (strtof rest).1) else (false, tds0, v0)
      | [] => (false, tds0, v0)
  else (false, tds0, v0)

/-! ## Payload codec, transmit side

Model of the `snprintf(buf, 64, "TD,%.0f,%.2f", tds, v)` call in the
transmitter's `app_main`.  `%.0f` and `%.2f` round to the nearest integer
and to the nearest hundredth respectively; ties are modelled with
Mathlib's `round` (half away from zero for positive arguments), which
agrees with the C library except on exact ties, where the C result
depends on the floating-point rounding mode.  All claims in scope only
concern non-tie values or do not fix tie behaviour. -/

/-- Character for one decimal digit. -/
def digitChar (d : Nat) : Char := Char.ofNat (48 + d)

/-- Decimal digits of `n`, most significant first, via structural fuel
(the fuel `n` itself always suffices). Returns `[]` for `n = 0`. -/
def natToCharsAux : Nat → Nat → List Char
  | 0, _ => []
  | fuel + 1, n =>
    if n = 0 then [] else natToCharsAux fuel (n / 10) ++ [digitChar (n % 10)]

/-- Decimal notation of a natural number. -/
def natToChars (n : Nat) : List Char :=
  if n = 0 then ['0'] else natToCharsAux n n

/-- Numeric value of a digit string, most significant digit first. -/
def valMSD : List Char → Nat
  | [] => 0
  | c :: cs => digitVal c * 10 ^ cs.length + valMSD cs

/-- Rendering of `%.0f`: the argument rounded to the nearest integer. -/
def fmt0 (x : ℚ) : List Char :=
  if round x < 0 then '-' :: natToChars (round x).natAbs
  else natToChars (round x).toNat

/-- Digits of a non-negative `%.2f` rendering, where `m` is the value
scaled by 100 and rounded: integer part, dot, exactly two fraction
digits. -/
def fmt2abs (m : Nat) : List Char :=
  natToChars (m / 100) ++ '.' :: [digitChar (m / 10 % 10), digitChar (m % 10)]

/-- Rendering of `%.2f`: the argument rounded to the nearest hundredth,
printed with exactly two fraction digits. -/
def fmt2 (x : ℚ) : List Char :=
  if round (100 * x) < 0 then '-' :: fmt2abs (round (100 * x)).natAbs
  else fmt2abs (round (100 * x)).toNat

/-- The full formatted payload `TD,<ppm>,<volt>` built by the
transmitter's `snprintf` (before any buffer truncation). -/
def encode_payload (tds volt : ℚ) : List Char :=
  'T' :: 'D' :: ',' :: (fmt0 tds ++ ',' :: fmt2 volt)

/-- The length `snprintf` reports for the payload: the length the
formatted string would have, regardless of the 64-byte buffer, mirroring
`int len = snprintf(...)` (this format never makes `snprintf` return a
negative value, so the `if (len < 0) len = 0` clamp in the source is
inert). -/
def tx_len (tds volt : ℚ) : Nat := (encode_payload tds volt).length

/-- The transmitter's decision to send: `if (len > 0) lora_send_burst(...)`. -/
def tx_transmits (tds volt : ℚ) : Bool := decide (0 < tx_len tds volt)

/-! ## Sampling unit (transmitter)

Model of `read_tds_ppm` in the transmitter source.  The `raws` list holds
the raw ADC codes returned by the `SAMPLES` successive
`adc_oneshot_read` calls (C `int` values, in `[0, 4095]` for a healthy
12-bit converter, but the model does not assume that).  Float arithmetic
is modelled exactly over `ℚ` with the source's decimal constants. -/

/-- Number of ADC samples averaged per activation. -/
def SAMPLES : ℕ := 32

/-- ADC reference voltage, 3.3. -/
def VREF : ℚ := 33 / 10

/-- Fixed temperature used for compensation, 25 deg C. -/
def TEMPERATURE_C : ℚ := 25

/-- Sum of the raw readings, as accumulated in the C `int sum`. -/
def raw_sum (raws : List Int) : Int := raws.foldl (fun a r => a + r) 0

/-- Average of the raw codes converted to a voltage:
`raw_avg * (VREF / 4095)`. -/
def sample_voltage (raws : List Int) : ℚ :=
  ((raw_sum raws : ℚ) / (SAMPLES : ℚ)) * (VREF / 4095)

/-- Temperature compensation coefficient `1 + 0.02 * (T - 25)`. -/
def comp_coeff : ℚ := 1 + (2 / 100) * (TEMPERATURE_C - 25)

/-- Compensated voltage fed to the calibration polynomial. -/
def sample_comp_voltage (raws : List Int) : ℚ := sample_voltage raws / comp_coeff

/-- The cubic TDS calibration polynomial scaled by 0.5:
`(133.42 v^3 - 255.86 v^2 + 857.39 v) * 0.5`. -/
def tds_poly (cv : ℚ) : ℚ :=
  (13342 / 100 * cv ^ 3 - 25586 / 100 * cv ^ 2 + 85739 / 100 * cv) * (1 / 2)

/-- Model of `read_tds_ppm`: computes the polynomial on the compensated
voltage, clamps negative results to zero, and also returns the
uncompensated voltage through the out parameter. -/
def read_tds_ppm (raws : List Int) : ℚ × ℚ :=
  let tds := tds_poly (sample_comp_voltage raws)
  (if tds < 0 then 0 else tds, sample_voltage raws)

/-! ## Burst transmitter

Model of `lora_send_burst`.  Time is measured in milliseconds from entry
(`start` in the source); the model assumes `lora_send_packet` returns
immediately and `vTaskDelay` advances the clock by exactly its argument,
which is the idealized reading of the tick arithmetic in the source.  The
loop is embedded with structural fuel; `windowMs + 1` steps always
suffice for a positive gap. -/

/-- One `while` loop of `lora_send_burst`: at elapsed time `t`, if the
window has not yet elapsed, send once and wait `gapMs`; returns the
number of sends issued and the elapsed time at which the loop exits. -/
def burstGo (windowMs gapMs : Nat) : Nat → Nat → Nat × Nat
  | 0, t => (0, t)
  | fuel + 1, t =>
    if t < windowMs then
      match burstGo windowMs gapMs fuel (t + gapMs) with
      | (n, tr) => (n + 1, tr)
    else (0, t)

/-- Model of `lora_send_burst`: run the loop from elapsed time 0. -/
def lora_send_burst (windowMs gapMs : Nat) : Nat × Nat :=
  burstGo windowMs gapMs (windowMs + 1) 0

/-- Burst window from the source, 5000 ms. -/
def TX_BURST_WINDOW_MS : Nat := 5000

/-- Gap between burst re-sends from the source, 500 ms. -/
def TX_BURST_GAP_MS : Nat := 500

/-! ## Transmitter duty cycle

Model of the transmitter's `app_main` as the sequence of externally
visible actions of one wake cycle.  `esp_deep_sleep_start` does not
return, so a fault-free trace ends at its (unique) `sleep` action; when
`lora_init` fails the `go_to_sleep()` call inside the `if` ends the cycle
before any radio configuration, sampling or sending.  The ADC paths are
guarded differently: `adc_init` wraps `adc_oneshot_new_unit` and
`adc_oneshot_config_channel` in `ESP_ERROR_CHECK`, and `read_tds_ppm`
wraps each of its 32 `adc_oneshot_read` calls in `ESP_ERROR_CHECK`; on
failure `ESP_ERROR_CHECK` calls `abort()`, a panic reset that never
reaches `go_to_sleep`, which the model renders as the trace-terminal
`espErrorAbort` action. -/

/-- Externally visible actions of one transmitter cycle. -/
inductive TxAction
  | initRadio
  | configRadio
  | initAdc
  | sample
  | send (payload : List Char) (len : Nat)
  | graceDelay
  | sleep
  | espErrorAbort
deriving DecidableEq

/-- The conditional send of the cycle: `snprintf` stores at most 63
characters plus the terminator in the 64-byte buffer (hence `take 63`)
while reporting the untruncated length, and the burst is issued whenever
that reported length is positive. -/
def tx_send_part (raws : List Int) : List TxAction :=
  if 0 < (encode_payload (read_tds_ppm raws).1 (read_tds_ppm raws).2).length then
    [TxAction.send ((encode_payload (read_tds_ppm raws).1 (read_tds_ppm raws).2).take 63)
      (encode_payload (read_tds_ppm raws).1 (read_tds_ppm raws).2).length]
  else []

/-- Outcome of the successive `ESP_ERROR_CHECK(adc_oneshot_read(...))`
calls of the sampling loop: `reads` lists what the ADC driver returns for
each call (`none` = an error status), and the loop either completes with
all raw codes or hits an error and aborts, which sequencing to `none`
represents. -/
def adc_read_all (reads : List (Option Int)) : Option (List Int) :=
  match reads with
  | [] => some []
  | none :: _ => none
  | some r :: rest =>
    match adc_read_all rest with
    | none => none
    | some rs => some (r :: rs)

/-- Model of the transmitter `app_main`: `loraOk` is the truth of
`lora_init() != 0`, `adcInitOk` is whether both `ESP_ERROR_CHECK`ed calls
of `adc_init` succeed, and `reads` are the outcomes the ADC driver hands
to the sampling loop.  A failed `ESP_ERROR_CHECK` aborts the process on
the spot (`espErrorAbort` ends the trace); otherwise the cycle runs to
the deep-sleep suspension. -/
def tx_app_main (loraOk adcInitOk : Bool) (reads : List (Option Int)) : List TxAction :=
  if loraOk then
    if adcInitOk then
      match adc_read_all reads with
      | some raws =>
        ([TxAction.initRadio, TxAction.configRadio, TxAction.initAdc, TxAction.sample]
            ++ tx_send_part raws ++ [TxAction.graceDelay]) ++ [TxAction.sleep]
      | none =>
        [TxAction.initRadio, TxAction.configRadio, TxAction.initAdc]
          ++ [TxAction.espErrorAbort]
    else [TxAction.initRadio, TxAction.configRadio] ++ [TxAction.espErrorAbort]
  else [TxAction.initRadio] ++ [TxAction.sleep]

/-! ## Receiver connectivity manager

Model of `wifi_event_handler` and the event-group bits it drives.  The
handler runs on Wi-Fi/IP events; `s_retry` starts at 0 and the event
group starts with both bits clear.  `esp_wifi_connect()` calls have no
effect on this state and are not modelled.  The "link up" signal read by
`task_rx` is `xEventGroupGetBits(...) & WIFI_CONNECTED_BIT`. -/

/-- Receiver connectivity state: the retry counter and the two event
group bits. -/
structure WifiState where
  s_retry : Nat
  connectedBit : Bool
  failBit : Bool
deriving DecidableEq

/-- Asynchronous events delivered to `wifi_event_handler`:
`WIFI_EVENT_STA_START`, `WIFI_EVENT_STA_DISCONNECTED`,
`IP_EVENT_STA_GOT_IP`. -/
inductive WifiEvent
  | staStart
  | staDisconnected
  | gotIp
deriving DecidableEq

/-- Retry ceiling named by the spec; the source uses the literal 5. -/
def MAX_RETRIES : Nat := 5

/-- Model of `wifi_event_handler`: one event applied to the state. -/
def wifi_event_handler (st : WifiState) (ev : WifiEvent) : WifiState :=
  match ev with
  | WifiEvent.staStart => st
  | WifiEvent.staDisconnected =>
    if st.s_retry < 5 then { st with s_retry := st.s_retry + 1 }
    else { st with failBit := true }
  | WifiEvent.gotIp => { st with s_retry := 0, connectedBit := true }

/-- Initial state right after `wifi_init_sta` creates the event group. -/
def wifiInit : WifiState := { s_retry := 0, connectedBit := false, failBit := false }

/-- The state after a sequence of events from boot. -/
def wifiRun (evs : List WifiEvent) : WifiState := evs.foldl wifi_event_handler wifiInit

/-- The link-up boolean consumed by `task_rx` before publishing:
`bits & WIFI_CONNECTED_BIT`. -/
def link_up (st : WifiState) : Bool := st.connectedBit

/-! ## Receiver inactivity watchdog

Model of `task_inactivity_restart` together with the single writer of
`s_last_ok_rx_ms` in `task_rx`.  Timestamps are the `uint32_t`
millisecond values `xTaskGetTickCount() * portTICK_PERIOD_MS`, kept
below `2^32` by reduction; `s_last_ok_rx_ms` starts at 0, which the
watchdog treats as "no packet yet". -/

/-- Modulus of the `uint32_t` tick arithmetic. -/
def U32MOD : Nat := 2 ^ 32

/-- One check of `task_inactivity_restart`: restart when the threshold is
positive, a valid packet has been stamped, and the `uint32_t` difference
`now - s_last_ok_rx_ms` exceeds the threshold in milliseconds. -/
def inactivity_fires (inactivityS lastOk now : Nat) : Bool :=
  decide (0 < inactivityS ∧ lastOk ≠ 0 ∧
    inactivityS * 1000 < (now % U32MOD + U32MOD - lastOk % U32MOD) % U32MOD)

/-- Receiver timeline events seen by the watchdog pair: a successfully
decoded packet stamped at `tMs` (the store in `task_rx`), or one
polling iteration of `task_inactivity_restart` at `tMs`. -/
inductive RxEvent
  | recv (tMs : Nat)
  | check (tMs : Nat)
deriving DecidableEq

/-- State: the current `s_last_ok_rx_ms` and whether any check has
restarted the process so far. -/
def stepInact (inactivityS : Nat) (st : Nat × Bool) (ev : RxEvent) : Nat × Bool :=
  match ev with
  | RxEvent.recv t => (t % U32MOD, st.2)
  | RxEvent.check t => (st.1, st.2 || inactivity_fires inactivityS st.1 t)

/-- Run the watchdog timeline from boot (`s_last_ok_rx_ms = 0`, no
restart yet). -/
def runInact (inactivityS : Nat) (evs : List RxEvent) : Nat × Bool :=
  evs.foldl (stepInact inactivityS) (0, false)

/-! ## Helper lemmas on digit strings -/

/-- A digit character is a digit in the `Char.isDigit` sense. -/
theorem digitChar_isDigit : ∀ d < 10, (digitChar d).isDigit = true := by decide

/-- `digitVal` inverts `digitChar` on single digits. -/
theorem digitVal_digitChar : ∀ d < 10, digitVal (digitChar d) = d := by decide

/-- A digit character is not one of the structural characters `strtof`
reacts to. -/
theorem isDigit_char_facts (c : Char) (h : c.isDigit = true) :
    cIsSpace c = false ∧ c ≠ '-' ∧ c ≠ '+' ∧ c ≠ '.' ∧ c ≠ 'e' ∧ c ≠ 'E' := by
  refine ⟨?_, ?_, ?_, ?_, ?_, ?_⟩
  · cases hc : cIsSpace c
    · rfl
    · exfalso
      simp only [cIsSpace, Bool.or_eq_true, beq_iff_eq] at hc
      rcases hc with ((((rfl | rfl) | rfl) | rfl) | rfl) | rfl <;> exact absurd h (by decide)
  · intro hEq; rw [hEq] at h; exact absurd h (by decide)
  · intro hEq; rw [hEq] at h; exact absurd h (by decide)
  · intro hEq; rw [hEq] at h; exact absurd h (by decide)
  · intro hEq; rw [hEq] at h; exact absurd h (by decide)
  · intro hEq; rw [hEq] at h; exact absurd h (by decide)

/-- Every character produced by `natToCharsAux` is a digit. -/
theorem natToCharsAux_digits :
    ∀ fuel n, ∀ c ∈ natToCharsAux fuel n, c.isDigit = true := by
  intro fuel
  induction fuel with
  | zero => intro n c hc; simp [natToCharsAux] at hc
  | succ f ih =>
    intro n c hc
    by_cases h0 : n = 0
    · simp [natToCharsAux, h0] at hc
    · simp only [natToCharsAux, h0, if_false, List.mem_append, List.mem_singleton] at hc
      rcases hc with hc | rfl
      · exact ih _ _ hc
      · exact digitChar_isDigit _ (Nat.mod_lt _ (by norm_num))

/-- Every character of the decimal notation is a digit. -/
theorem natToChars_digits (n : Nat) : ∀ c ∈ natToChars n, c.isDigit = true := by
  intro c hc
  by_cases h0 : n = 0
  · simp [natToChars, h0] at hc
    rw [hc]; decide
  · simp only [natToChars, h0, if_false] at hc
    exact natToCharsAux_digits n n c hc

/-- The decimal notation of a natural number is never empty. -/
theorem natToChars_ne_nil (n : Nat) : natToChars n ≠ [] := by
  by_cases h0 : n = 0
  · simp [natToChars, h0]
  · obtain ⟨m, rfl⟩ : ∃ m, n = m + 1 := ⟨n - 1, by omega⟩
    simp [natToChars, natToCharsAux]

/-- Appending one digit multiplies the value by ten. -/
theorem valMSD_append_digit (xs : List Char) (c : Char) :
    valMSD (xs ++ [c]) = valMSD xs * 10 + digitVal c := by
  induction xs with
  | nil => simp [valMSD]
  | cons x xs ih =>
    simp only [List.cons_append, valMSD, ih, List.append_eq, List.length_append,
      List.length_cons, List.length_nil]
    ring

/-- `natToCharsAux` writes the decimal digits of its argument. -/
theorem valMSD_natToCharsAux : ∀ fuel n, n ≤ fuel → valMSD (natToCharsAux fuel n) = n := by
  intro fuel
  induction fuel with
  | zero => intro n hn; interval_cases n; simp [natToCharsAux, valMSD]
  | succ f ih =>
    intro n hn
    by_cases h0 : n = 0
    · simp [natToCharsAux, h0, valMSD]
    · rw [natToCharsAux, if_neg h0, valMSD_append_digit,
        ih (n / 10) (by omega), digitVal_digitChar _ (Nat.mod_lt _ (by norm_num))]
      omega

/-- The value of the decimal notation is the number itself. -/
theorem valMSD_natToChars (n : Nat) : valMSD (natToChars n) = n := by
  by_cases h0 : n = 0
  · simp [natToChars, h0, valMSD, digitVal]
  · rw [natToChars, if_neg h0, valMSD_natToCharsAux n n le_rfl]

/-- `natToCharsAux` produces at most as many characters as the number has
digits. -/
theorem natToCharsAux_length :
    ∀ fuel n k, n < 10 ^ k → (natToCharsAux fuel n).length ≤ k := by
  intro fuel
  induction fuel with
  | zero => intro n k _; simp [natToCharsAux]
  | succ f ih =>
    intro n k hk
    by_cases h0 : n = 0
    · simp [natToCharsAux, h0]
    · have hk1 : 1 ≤ k := by
        by_contra hlt
        have : k = 0 := by omega
        subst this
        simp at hk
        omega
      rw [natToCharsAux, if_neg h0]
      have hdiv : n / 10 < 10 ^ (k - 1) := by
        have : 10 ^ k = 10 ^ (k - 1) * 10 := by
          rw [← pow_succ]
          congr 1
          omega
        rw [Nat.div_lt_iff_lt_mul (by norm_num)]
        omega
      have := ih (n / 10) (k - 1) hdiv
      simp only [List.length_append, List.length_singleton]
      omega

/-- Length bound for the decimal notation. -/
theorem natToChars_length (n k : Nat) (h1 : 1 ≤ k) (h : n < 10 ^ k) :
    (natToChars n).length ≤ k := by
  by_cases h0 : n = 0
  · simp [natToChars, h0]; omega
  · rw [natToChars, if_neg h0]
    exact natToCharsAux_length n n k h

/-- Head of a list is a non-digit, stated for the rest arguments of
`scanDigits`. -/
def headNonDigit (r : List Char) : Prop :=
  ∀ c, r.head? = some c → c.isDigit = false

/-- `scanDigits` consumes exactly a maximal digit prefix. -/
theorem scanDigits_append (ds r : List Char) (hd : ∀ c ∈ ds, c.isDigit = true)
    (hr : headNonDigit r) : scanDigits (ds ++ r) = (valMSD ds, ds.length, r) := by
  induction ds with
  | nil =>
    cases r with
    | nil => rfl
    | cons c cs =>
      have : c.isDigit = false := hr c rfl
      simp [scanDigits, this, valMSD]
  | cons d ds ih =>
    have hdd : d.isDigit = true := hd d (List.mem_cons_self d ds)
    have ihh := ih (fun c hc => hd c (List.mem_cons_of_mem d hc))
    simp only [List.cons_append, scanDigits, hdd, if_true, List.append_eq, ihh, valMSD,
      List.length_cons]

/-! ## Helper lemmas on strtof -/

/-- Rounding a non-negative number is non-negative. -/
theorem round_nonneg_of_nonneg (x : ℚ) (hx : 0 ≤ x) : 0 ≤ round x := by
  rw [round_eq]
  exact Int.floor_nonneg.mpr (by linarith)

/-- Rounding is monotone. -/
theorem round_le_round_of_le (x y : ℚ) (h : x ≤ y) : round x ≤ round y := by
  rw [round_eq, round_eq]
  exact Int.floor_mono (by linarith)

/-- `strtof` on a decimal integer immediately followed by a comma parses
the integer and stops at the comma. -/
theorem strtof_nat_comma (n : Nat) (rest : List Char) :
    strtof (natToChars n ++ ',' :: rest) = ((n : ℚ), ',' :: rest) := by
  obtain ⟨c0, ds', hds⟩ := List.exists_cons_of_ne_nil (natToChars_ne_nil n)
  have hdigits : ∀ c ∈ natToChars n, c.isDigit = true := natToChars_digits n
  have hc0 : c0.isDigit = true := hdigits c0 (by rw [hds]; exact List.mem_cons_self _ _)
  obtain ⟨hsp, hminus, hplus, _, _, _⟩ := isDigit_char_facts c0 hc0
  have hskip : skipSpaces (natToChars n ++ ',' :: rest) = natToChars n ++ ',' :: rest := by
    rw [hds, List.cons_append, skipSpaces, List.dropWhile_cons, hsp]
    simp
  have hsign :
      strtofSign (natToChars n ++ ',' :: rest) = (1, natToChars n ++ ',' :: rest) := by
    rw [hds, List.cons_append]
    simp only [strtofSign]
    rw [if_neg hminus, if_neg hplus]
  have hscan : scanDigits (natToChars n ++ ',' :: rest)
      = ((n : Nat), (natToChars n).length, ',' :: rest) := by
    rw [scanDigits_append _ _ hdigits (fun c hc => by
      simp only [List.head?] at hc
      injection hc with hc
      rw [← hc]
      decide), valMSD_natToChars]
  have hlen : ¬(natToChars n).length = 0 := by
    rw [hds]
    simp
  simp only [strtof, hskip, hsign, hscan]
  rw [if_neg (by decide : ¬(',' : Char) = '.'), if_neg hlen, strtofExp]
  rw [if_neg (by decide : ¬((',' : Char) = 'e' ∨ (',' : Char) = 'E')), one_mul]

/-- `strtof` on the two-fraction-digit rendering of `m / 100` parses the
whole string and yields exactly `m / 100`. -/
theorem strtof_fmt2abs (m : Nat) : strtof (fmt2abs m) = ((m : ℚ) / 100, []) := by
  have d1lt : m / 10 % 10 < 10 := Nat.mod_lt _ (by norm_num)
  have d2lt : m % 10 < 10 := Nat.mod_lt _ (by norm_num)
  obtain ⟨c0, ds', hds⟩ := List.exists_cons_of_ne_nil (natToChars_ne_nil (m / 100))
  have hdigits : ∀ c ∈ natToChars (m / 100), c.isDigit = true := natToChars_digits _
  have hc0 : c0.isDigit = true := hdigits c0 (by rw [hds]; exact List.mem_cons_self _ _)
  obtain ⟨hsp, hminus, hplus, _, _, _⟩ := isDigit_char_facts c0 hc0
  have hskip : skipSpaces (fmt2abs m) = fmt2abs m := by
    rw [fmt2abs, hds, List.cons_append, skipSpaces, List.dropWhile_cons, hsp]
    simp
  have hsign : strtofSign (fmt2abs m) = (1, fmt2abs m) := by
    rw [fmt2abs, hds, List.cons_append]
    simp only [strtofSign]
    rw [if_neg hminus, if_neg hplus, ← List.cons_append, ← hds, ← fmt2abs]
  have hscan : scanDigits (fmt2abs m)
      = (m / 100, (natToChars (m / 100)).length,
          '.' :: [digitChar (m / 10 % 10), digitChar (m % 10)]) := by
    rw [fmt2abs, scanDigits_append _ _ hdigits (fun c hc => by
      simp only [List.head?] at hc
      injection hc with hc
      rw [← hc]
      decide), valMSD_natToChars]
  have hscanFrac : scanDigits [digitChar (m / 10 % 10), digitChar (m % 10)]
      = (10 * (m / 10 % 10) + m % 10, 2, []) := by
    have := scanDigits_append [digitChar (m / 10 % 10), digitChar (m % 10)] []
      (by
        intro c hc
        simp only [List.mem_cons, List.mem_singleton, List.not_mem_nil, or_false] at hc
        rcases hc with rfl | rfl
        · exact digitChar_isDigit _ d1lt
        · exact digitChar_isDigit _ d2lt)
      (fun c hc => by simp at hc)
    rw [List.append_nil] at this
    rw [this]
    simp only [valMSD, List.length_cons, List.length_nil,
      digitVal_digitChar _ d1lt, digitVal_digitChar _ d2lt]
    norm_num
    ring
  have hlen : ¬((natToChars (m / 100)).length + 2) = 0 := by positivity
  simp only [strtof, hskip, hsign, hscan]
  simp only [ite_true, hscanFrac]
  rw [if_neg hlen, strtofExp, one_mul]
  have key : m / 100 * 100 + (10 * (m / 10 % 10) + m % 10) = m := by omega
  have : ((m / 100 : ℕ) : ℚ) + ((10 * (m / 10 % 10) + m % 10 : ℕ) : ℚ) / 10 ^ 2
      = (m : ℚ) / 100 := by
    field_simp
    norm_num
    exact_mod_cast key
  rw [this]

/-- `parse_payload` on a well-formed `TD,<digits>,<rest>` frame succeeds,
parsing the first field as the integer and the second with `strtof`. -/
theorem parse_payload_encoded (n : Nat) (rest : List Char) :
    parse_payload ('T' :: 'D' :: ',' :: (natToChars n ++ ',' :: rest))
      = some ((n : ℚ), (strtof rest).1) := by
  have htake : ('T' :: 'D' :: ',' :: (natToChars n ++ ',' :: rest)).take 3
      = ['T', 'D', ','] := rfl
  have hdrop : ('T' :: 'D' :: ',' :: (natToChars n ++ ',' :: rest)).drop 3
      = natToChars n ++ ',' :: rest := rfl
  rw [parse_payload, if_pos htake, hdrop, strtof_nat_comma]
  simp

/-- For a non-negative argument `%.0f` prints the rounded value without a
sign. -/
theorem fmt0_of_nonneg (x : ℚ) (hx : 0 ≤ x) : fmt0 x = natToChars (round x).toNat := by
  rw [fmt0, if_neg (not_lt.mpr (round_nonneg_of_nonneg x hx))]

/-- For a non-negative argument `%.2f` prints the scaled rounded value
without a sign. -/
theorem fmt2_of_nonneg (x : ℚ) (hx : 0 ≤ x) : fmt2 x = fmt2abs (round (100 * x)).toNat := by
  rw [fmt2, if_neg (not_lt.mpr (round_nonneg_of_nonneg _ (by positivity)))]

/-! ## Claims -/

/-- Claim C1 (corrected).  `decode` fails exactly when the `TD,` prefix
does not match or when the character at `strtof`'s end pointer for the
first field is not a comma; a second numeric field that fails to parse
does not make `decode` fail (it yields voltage 0.0).  In particular
`decode("XX,1,2")`, `decode("TD,1 2")` and `decode("TD,abc,2")` fail,
while `decode("TD,120,1.43")` succeeds with concentration 120.0 and
voltage 1.43. -/
theorem c1_decode_failure_conditions :
    (∀ s : List Char, parse_payload s = none ↔
        (s.take 3 ≠ ['T', 'D', ','] ∨ ∀ rest, (strtof (s.drop 3)).2 ≠ ',' :: rest))
    ∧ parse_payload ("XX,1,2".toList) = none
    ∧ parse_payload ("TD,1 2".toList) = none
    ∧ parse_payload ("TD,abc,2".toList) = none
    ∧ parse_payload ("TD,120,1.43".toList) = some (120, 143 / 100) := by
  refine ⟨?_, by decide, by decide, by decide, ?_⟩
  · intro s
    by_cases hp : s.take 3 = ['T', 'D', ',']
    · rcases he : strtof (s.drop 3) with ⟨ppm, e⟩
      cases e with
      | nil =>
        have hps : parse_payload s = none := by
          unfold parse_payload
          rw [if_pos hp, he]
        rw [hps]
        constructor
        · intro _
          right
          intro rest hr
          simp at hr
        · intro _
          rfl
      | cons c rest' =>
        have hps : parse_payload s
            = (if c = ',' then some (ppm, (strtof rest').1) else none) := by
          unfold parse_payload
          rw [if_pos hp, he]
        by_cases hc : c = ','
        · subst hc
          rw [hps, if_pos rfl]
          constructor
          · intro h
            simp at h
          · intro hor
            exfalso
            rcases hor with h | h
            · exact h hp
            · exact h rest' rfl
        · rw [hps, if_neg hc]
          constructor
          · intro _
            right
            intro rest hr
            have hr' : c :: rest' = ',' :: rest := hr
            injection hr' with hc1 _
            exact hc hc1
          · intro _
            rfl
    · have hps : parse_payload s = none := by
        unfold parse_payload
        rw [if_neg hp]
      rw [hps]
      constructor
      · intro _
        left
        exact hp
      · intro _
        rfl
  · have h : ("TD,120,1.43".toList)
        = 'T' :: 'D' :: ',' :: (natToChars 120 ++ ',' :: fmt2abs 143) := by decide
    rw [h, parse_payload_encoded, strtof_fmt2abs]
    norm_num

/-- Claim C1, counterexample to the claim as stated: `TD,12,abc` has the
right prefix and comma but its second numeric field `abc` fails to parse
(the modelled `strtof` performs no conversion, leaving the end pointer at
the start), yet `decode` succeeds, returning voltage 0. -/
theorem c1_counterexample :
    parse_payload ("TD,12,abc".toList) = some (12, 0)
    ∧ (strtof ("abc".toList)).2 = "abc".toList := by
  constructor
  · have h : ("TD,12,abc".toList)
        = 'T' :: 'D' :: ',' :: (natToChars 12 ++ ',' :: "abc".toList) := by decide
    rw [h, parse_payload_encoded]
    have habc : strtof ("abc".toList) = (0, "abc".toList) := rfl
    rw [habc]
    norm_num
  · rfl

/-- Claim C2 (confirmed).  Decoding the encoded wire message recovers the
concentration rounded to the nearest integer and the voltage rounded to
two decimal places, for every non-negative measurement. -/
theorem c2_round_trip (ppm volt : ℚ) (h1 : 0 ≤ ppm) (h2 : 0 ≤ volt) :
    parse_payload (encode_payload ppm volt)
      = some (((round ppm : ℤ) : ℚ), ((round (100 * volt) : ℤ) : ℚ) / 100) := by
  rw [encode_payload, fmt0_of_nonneg ppm h1, fmt2_of_nonneg volt h2,
    parse_payload_encoded, strtof_fmt2abs]
  have e1 : (((round ppm).toNat : ℕ) : ℚ) = ((round ppm : ℤ) : ℚ) := by
    exact_mod_cast congrArg (fun z : ℤ => (z : ℚ))
      (Int.toNat_of_nonneg (round_nonneg_of_nonneg ppm h1))
  have e2 : (((round (100 * volt)).toNat : ℕ) : ℚ)
      = ((round (100 * volt) : ℤ) : ℚ) := by
    exact_mod_cast congrArg (fun z : ℤ => (z : ℚ))
      (Int.toNat_of_nonneg (round_nonneg_of_nonneg _ (by positivity)))
  rw [e1, e2]

/-- Claim C2, witness at the concrete measurement (120, 1.43). -/
theorem c2_round_trip_witness :
    (0 : ℚ) ≤ 120 ∧ (0 : ℚ) ≤ 143 / 100 ∧
      parse_payload (encode_payload 120 (143 / 100))
        = some (((round (120 : ℚ) : ℤ) : ℚ),
            ((round ((100 : ℚ) * (143 / 100)) : ℤ) : ℚ) / 100) :=
  ⟨by norm_num, by norm_num, c2_round_trip 120 (143 / 100) (by norm_num) (by norm_num)⟩

/-- Claim C10 (confirmed).  Whenever `parse_payload` returns false, the
two output locations still hold whatever the caller stored there. -/
theorem c10_failure_leaves_outputs (s : List Char) (tds0 v0 : ℚ)
    (h : (parse_payload_c s tds0 v0).1 = false) :
    (parse_payload_c s tds0 v0).2 = (tds0, v0) := by
  by_cases hp : s.take 3 = ['T', 'D', ',']
  · rcases he : strtof (s.drop 3) with ⟨ppm, e⟩
    cases e with
    | nil =>
      have hps : parse_payload_c s tds0 v0 = (false, tds0, v0) := by
        unfold parse_payload_c
        rw [if_pos hp, he]
      rw [hps]
    | cons c rest =>
      have hps : parse_payload_c s tds0 v0
          = (if c = ',' then ((true : Bool), ppm, (strtof rest).1)
              else ((false : Bool), tds0, v0)) := by
        unfold parse_payload_c
        rw [if_pos hp, he]
      by_cases hc : c = ','
      · rw [hps, if_pos hc] at h
        simp at h
      · rw [hps, if_neg hc]
  · have hps : parse_payload_c s tds0 v0 = (false, tds0, v0) := by
      unfold parse_payload_c
      rw [if_neg hp]
    rw [hps]

/-- Claim C10, witness at a failing input with dirty output locations. -/
theorem c10_witness :
    (parse_payload_c ("XX,1,2".toList) 7 9).1 = false
    ∧ (parse_payload_c ("XX,1,2".toList) 7 9).2 = (7, 9) :=
  ⟨by decide, c10_failure_leaves_outputs ("XX,1,2".toList) 7 9 (by decide)⟩

/-- The retry counter never leaves `[0, 5]`: each handler step preserves
the bound. -/
theorem s_retry_le_helper (evs : List WifiEvent) :
    ∀ st : WifiState, st.s_retry ≤ 5 → (evs.foldl wifi_event_handler st).s_retry ≤ 5 := by
  induction evs with
  | nil => intro st h; exact h
  | cons e evs ih =>
    intro st h
    rw [List.foldl_cons]
    apply ih
    cases e with
    | staStart => exact h
    | staDisconnected =>
      by_cases hr : st.s_retry < 5
      · simp only [wifi_event_handler, hr, if_true]
        omega
      · simp only [wifi_event_handler, hr, if_false]
        exact h
    | gotIp => simp [wifi_event_handler]

/-- Claim C3 (corrected).  The Failed bit is raised on the sixth
consecutive drop event — five drops only exhaust the reconnection
attempts, leaving the counter at the ceiling — and while failed the
link-up signal reads false; one subsequent address-acquired event sets
the connected bit and resets the counter to 0; the retry counter always
stays in `[0, MAX_RETRIES]`. -/
theorem c3_retry_ceiling :
    (wifiRun (List.replicate 6 WifiEvent.staDisconnected)).failBit = true
    ∧ link_up (wifiRun (List.replicate 6 WifiEvent.staDisconnected)) = false
    ∧ (wifiRun (List.replicate 6 WifiEvent.staDisconnected
        ++ [WifiEvent.gotIp])).connectedBit = true
    ∧ (wifiRun (List.replicate 6 WifiEvent.staDisconnected
        ++ [WifiEvent.gotIp])).s_retry = 0
    ∧ ∀ evs : List WifiEvent, (wifiRun evs).s_retry ≤ MAX_RETRIES := by
  refine ⟨by decide, by decide, by decide, by decide, ?_⟩
  intro evs
  show (wifiRun evs).s_retry ≤ 5
  exact s_retry_le_helper evs wifiInit (by decide)

/-- Claim C3, counterexample to the claim as stated: after exactly
`MAX_RETRIES = 5` consecutive drop events the handler has merely used up
its five reconnection attempts — the fail bit is still clear, so the
Failed state has not been reached. -/
theorem c3_counterexample :
    (wifiRun (List.replicate 5 WifiEvent.staDisconnected)).failBit = false
    ∧ (wifiRun (List.replicate 5 WifiEvent.staDisconnected)).s_retry = 5 := by
  exact ⟨by decide, by decide⟩

/-- The connected bit is latched: it is set by the first `gotIp` event and
never cleared afterwards. -/
theorem connectedBit_foldl (evs : List WifiEvent) :
    ∀ st : WifiState, ((evs.foldl wifi_event_handler st).connectedBit = true
      ↔ st.connectedBit = true ∨ WifiEvent.gotIp ∈ evs) := by
  induction evs with
  | nil => intro st; simp
  | cons e evs ih =>
    intro st
    rw [List.foldl_cons, ih]
    cases e with
    | staStart => simp [wifi_event_handler]
    | staDisconnected =>
      by_cases hr : st.s_retry < 5 <;> simp [wifi_event_handler, hr]
    | gotIp => simp [wifi_event_handler]

/-- Claim C4 (corrected).  The link-up boolean read by the publish path is
a latched event-group bit, not `state == Connected`: it is true exactly
when at least one address-acquired event has occurred since boot, and in
particular it stays true after a drop event that follows a successful
connection. -/
theorem c4_link_up_latched :
    ∀ evs : List WifiEvent, (link_up (wifiRun evs) = true ↔ WifiEvent.gotIp ∈ evs) := by
  intro evs
  unfold link_up wifiRun
  rw [connectedBit_foldl]
  simp [wifiInit]

/-- Claim C4, counterexample to the claim as stated: after a successful
connection followed by a drop event, the link-up signal still reads true
(the claim requires false until the next address-acquired event). -/
theorem c4_counterexample :
    link_up (wifiRun [WifiEvent.staStart, WifiEvent.gotIp, WifiEvent.staDisconnected])
      = true := by
  decide

/-- A timeline with no received packet keeps `s_last_ok_rx_ms` at 0 and
never fires the inactivity watchdog. -/
theorem runInact_no_recv (s : Nat) (evs : List RxEvent) :
    ∀ st : Nat × Bool, st.1 = 0 → (∀ t, RxEvent.recv t ∉ evs) →
      evs.foldl (stepInact s) st = (0, st.2) := by
  induction evs with
  | nil =>
    intro st h0 _
    rw [List.foldl_nil]
    rw [show st = (st.1, st.2) from rfl, h0]
  | cons e evs ih =>
    intro st h0 hnr
    rw [List.foldl_cons]
    cases e with
    | recv t => exact absurd (List.mem_cons_self _ _) (hnr t)
    | check t =>
      have hstep : stepInact s st (RxEvent.check t) = (0, st.2) := by
        simp [stepInact, inactivity_fires, h0]
      rw [hstep]
      exact ih (0, st.2) rfl (fun t' ht' => hnr t' (List.mem_cons_of_mem _ ht'))

/-- Claim C5 (corrected).  With a positive threshold the watchdog never
fires while no packet has ever been stamped, regardless of elapsed time;
and after a packet stamped at a nonzero tick time `t`, a check at time
`now` fires exactly when `now - t` exceeds the threshold.  (The nonzero
proviso is forced by the code: a packet stamped exactly at tick time 0
re-creates the "never received" sentinel.) -/
theorem c5_inactivity_guard (inactivityS : Nat) (hpos : 0 < inactivityS) :
    (∀ evs : List RxEvent, (∀ t, RxEvent.recv t ∉ evs) →
        (runInact inactivityS evs).2 = false)
    ∧ (∀ t now : Nat, 0 < t → t ≤ now → now < U32MOD →
        ((runInact inactivityS [RxEvent.recv t, RxEvent.check now]).2 = true
          ↔ inactivityS * 1000 < now - t)) := by
  constructor
  · intro evs hnr
    rw [runInact, runInact_no_recv inactivityS evs (0, false) rfl hnr]
  · intro t now ht htn hnow
    have htlt : t < U32MOD := lt_of_le_of_lt htn hnow
    have h1 : t % U32MOD = t := Nat.mod_eq_of_lt htlt
    have h2 : now % U32MOD = now := Nat.mod_eq_of_lt hnow
    have h3 : (now % U32MOD + U32MOD - t % U32MOD % U32MOD) % U32MOD = now - t := by
      simp only [h1, h2]
      rw [show now + U32MOD - t = now - t + U32MOD by omega, Nat.add_mod_right]
      exact Nat.mod_eq_of_lt (lt_of_le_of_lt (Nat.sub_le _ _) hnow)
    simp only [runInact, List.foldl_cons, List.foldl_nil, stepInact, inactivity_fires,
      Bool.false_or, decide_eq_true_eq, h3]
    constructor
    · intro h
      exact h.2.2
    · intro h
      exact ⟨hpos, by omega, h⟩

/-- Claim C5, witness: threshold 10 s, packet at 5 s, check at 20 s. -/
theorem c5_witness :
    0 < 10 ∧
      ((runInact 10 [RxEvent.recv 5000, RxEvent.check 20000]).2 = true
        ↔ 10 * 1000 < 20000 - 5000) :=
  ⟨by decide,
    (c5_inactivity_guard 10 (by decide)).2 5000 20000 (by decide) (by decide) (by decide)⟩

/-- Claim C5, counterexample to the claim as stated: a packet received at
tick time 0 stores the sentinel value 0, so a check 20 s later (with a
10 s threshold) does not restart, although a packet has been received and
the threshold has long been exceeded. -/
theorem c5_counterexample :
    (runInact 10 [RxEvent.recv 0, RxEvent.check 20000]).2 = false := by
  decide

/-- Claim C6 (confirmed).  With the source's 5000 ms window and 500 ms
gap, the burst loop issues exactly `ceil(5000 / 500) = 10` sends, at
least one, and returns only once the window has elapsed (the model takes
the send as instantaneous and each gap delay as exactly 500 ms). -/
theorem c6_burst_timing :
    lora_send_burst TX_BURST_WINDOW_MS TX_BURST_GAP_MS
      = ((TX_BURST_WINDOW_MS + TX_BURST_GAP_MS - 1) / TX_BURST_GAP_MS, TX_BURST_WINDOW_MS)
    ∧ 1 ≤ (lora_send_burst TX_BURST_WINDOW_MS TX_BURST_GAP_MS).1
    ∧ TX_BURST_WINDOW_MS ≤ (lora_send_burst TX_BURST_WINDOW_MS TX_BURST_GAP_MS).2 := by
  exact ⟨by decide, by decide, by decide⟩

/-- Claim C7 (corrected).  The transmit decision never suppresses a burst
— the formatted length is always positive, so even a payload that the
64-byte buffer would truncate is still sent — while every measurement in
the sensor's realistic range (concentration and voltage at most 10^6)
formats to strictly fewer than 64 bytes and is therefore never
truncated. -/
theorem c7_encode_bounds :
    (∀ tds volt : ℚ, tx_transmits tds volt = true)
    ∧ (∀ tds volt : ℚ, 0 ≤ tds → tds ≤ 10 ^ 6 → 0 ≤ volt → volt ≤ 10 ^ 6 →
        tx_len tds volt < 64) := by
  constructor
  · intro tds volt
    simp [tx_transmits, tx_len, encode_payload]
  · intro tds volt h1 h2 h3 h4
    have hr1 : round tds ≤ 10 ^ 6 := by
      have hmono := round_le_round_of_le tds (10 ^ 6) h2
      rwa [show ((10 : ℚ) ^ 6) = (((10 ^ 6 : ℕ) : ℚ)) by norm_num, round_natCast] at hmono
    have hfa : (fmt0 tds).length ≤ 7 := by
      rw [fmt0_of_nonneg tds h1]
      apply natToChars_length _ 7 (by norm_num)
      have hle : (round tds).toNat ≤ 10 ^ 6 := Int.toNat_le.mpr hr1
      exact lt_of_le_of_lt hle (by norm_num)
    have hr2 : round (100 * volt) ≤ 10 ^ 8 := by
      have hmono := round_le_round_of_le (100 * volt) (10 ^ 8) (by linarith)
      rwa [show ((10 : ℚ) ^ 8) = (((10 ^ 8 : ℕ) : ℚ)) by norm_num, round_natCast] at hmono
    have hfb : (fmt2 volt).length ≤ 10 := by
      rw [fmt2_of_nonneg volt h3, fmt2abs]
      have hle : (round (100 * volt)).toNat ≤ 10 ^ 8 := Int.toNat_le.mpr hr2
      have hdiv : (round (100 * volt)).toNat / 100 < 10 ^ 7 := by
        have hd2 : (round (100 * volt)).toNat / 100 ≤ 10 ^ 8 / 100 :=
          Nat.div_le_div_right hle
        have hd3 : (10 : ℕ) ^ 8 / 100 < 10 ^ 7 := by norm_num
        omega
      have := natToChars_length ((round (100 * volt)).toNat / 100) 7 (by norm_num) hdiv
      simp only [List.length_append, List.length_cons, List.length_nil]
      omega
    rw [tx_len, encode_payload]
    simp only [List.length_cons, List.length_append]
    omega

/-- Claim C7, witness for the in-range bound at the measurement
(2419, 3.3). -/
theorem c7_witness :
    (0 : ℚ) ≤ 2419 ∧ (2419 : ℚ) ≤ 10 ^ 6 ∧ (0 : ℚ) ≤ 33 / 10
      ∧ (33 / 10 : ℚ) ≤ 10 ^ 6 ∧ tx_len 2419 (33 / 10) < 64 :=
  ⟨by norm_num, by norm_num, by norm_num, by norm_num,
    (c7_encode_bounds).2 2419 (33 / 10) (by norm_num) (by norm_num) (by norm_num)
      (by norm_num)⟩

/-- Claim C7, counterexample to the claim as stated: the measurement with
concentration `10^70` formats to 79 bytes, which the 64-byte buffer
truncates, yet the reported length is positive, so the transmitter sends
the (truncated) burst instead of suppressing it. -/
theorem c7_counterexample :
    64 < tx_len ((10 ^ 70 : ℕ) : ℚ) 0 ∧ tx_transmits ((10 ^ 70 : ℕ) : ℚ) 0 = true := by
  have hfmt0 : fmt0 ((10 ^ 70 : ℕ) : ℚ) = natToChars (10 ^ 70) := by
    rw [fmt0_of_nonneg _ (Nat.cast_nonneg _), round_natCast, Int.toNat_natCast]
  have hfmt2 : fmt2 (0 : ℚ) = fmt2abs 0 := by
    rw [fmt2_of_nonneg 0 le_rfl, mul_zero, round_zero, Int.toNat_zero]
  have hlen : tx_len ((10 ^ 70 : ℕ) : ℚ) 0 = 79 := by
    rw [tx_len, encode_payload, hfmt0, hfmt2]
    decide
  constructor
  · rw [hlen]
    norm_num
  · simp only [tx_transmits, hlen]
    decide

/-- Claim C8 (confirmed).  The sampled concentration is never negative,
and whenever the calibration polynomial on the compensated voltage is
negative the result is clamped to exactly zero. -/
theorem c8_sampling_clamp (raws : List Int) :
    0 ≤ (read_tds_ppm raws).1
    ∧ (tds_poly (sample_comp_voltage raws) < 0 → (read_tds_ppm raws).1 = 0) := by
  constructor
  · rw [read_tds_ppm]
    by_cases h : tds_poly (sample_comp_voltage raws) < 0
    · simp [h]
    · simp only [h, if_false]
      exact le_of_not_lt h
  · intro h
    rw [read_tds_ppm]
    simp [h]

/-- Claim C8, witness: 32 raw readings of -100 produce a negative
compensated voltage, a negative polynomial value, and a clamped zero
result. -/
theorem c8_witness :
    tds_poly (sample_comp_voltage (List.replicate 32 (-100))) < 0
    ∧ (read_tds_ppm (List.replicate 32 (-100))).1 = 0 := by
  have hsum : raw_sum (List.replicate 32 (-100)) = -3200 := by decide
  have hneg : tds_poly (sample_comp_voltage (List.replicate 32 (-100))) < 0 := by
    rw [sample_comp_voltage, sample_voltage, comp_coeff, hsum, tds_poly]
    norm_num [SAMPLES, VREF, TEMPERATURE_C]
  exact ⟨hneg, (c8_sampling_clamp (List.replicate 32 (-100))).2 hneg⟩

/-- Claim C9 (corrected).  When radio initialization fails the cycle is
exactly init-then-sleep — no configuration, sampling, encoding or
transmission happens (the Active phase is skipped) — and no fault is
retried within the cycle (every trace contains exactly one
radio-initialization attempt).  But not every fault routes to the
suspension path: a failed `ESP_ERROR_CHECK` during ADC initialization or
during a sample read aborts the process with a panic reset before
suspension, so the cycle then ends at the abort; only a fault-free ADC
brings the cycle to the deep-sleep suspension. -/
theorem c9_fault_suspension :
    (∀ (adcOk : Bool) (reads : List (Option Int)),
        tx_app_main false adcOk reads = [TxAction.initRadio, TxAction.sleep])
    ∧ (∀ reads : List (Option Int), tx_app_main true false reads
        = [TxAction.initRadio, TxAction.configRadio, TxAction.espErrorAbort])
    ∧ (∀ reads : List (Option Int), adc_read_all reads = none →
        tx_app_main true true reads
          = [TxAction.initRadio, TxAction.configRadio, TxAction.initAdc,
              TxAction.espErrorAbort])
    ∧ (∀ (reads : List (Option Int)) (raws : List Int), adc_read_all reads = some raws →
        (tx_app_main true true reads).getLast? = some TxAction.sleep)
    ∧ (∀ (ok adcOk : Bool) (reads : List (Option Int)), ∃ l,
        tx_app_main ok adcOk reads = TxAction.initRadio :: l ∧ TxAction.initRadio ∉ l) := by
  refine ⟨fun adcOk reads => rfl, fun reads => rfl, ?_, ?_, ?_⟩
  · intro reads hr
    unfold tx_app_main
    rw [hr]
    rfl
  · intro reads raws hr
    unfold tx_app_main
    rw [hr]
    exact List.getLast?_concat _
  · intro ok adcOk reads
    cases ok
    · exact ⟨[TxAction.sleep], rfl, by simp⟩
    · cases adcOk
      · exact ⟨[TxAction.configRadio, TxAction.espErrorAbort], rfl, by simp⟩
      · rcases hr : adc_read_all reads with _ | raws
        · refine ⟨[TxAction.configRadio, TxAction.initAdc, TxAction.espErrorAbort],
            ?_, by simp⟩
          unfold tx_app_main
          rw [hr]
          rfl
        · refine ⟨([TxAction.configRadio, TxAction.initAdc, TxAction.sample]
              ++ tx_send_part raws ++ [TxAction.graceDelay]) ++ [TxAction.sleep], ?_, ?_⟩
          · unfold tx_app_main
            rw [hr]
            rfl
          · intro hmem
            unfold tx_send_part at hmem
            by_cases hl :
                0 < (encode_payload (read_tds_ppm raws).1 (read_tds_ppm raws).2).length
            · rw [if_pos hl] at hmem
              simp at hmem
            · rw [if_neg hl] at hmem
              simp at hmem

/-- Claim C9, witness: a faulting sample read aborts, a fault-free read
list brings the cycle to the suspension action. -/
theorem c9_witness :
    adc_read_all [(none : Option Int)] = none
    ∧ tx_app_main true true [(none : Option Int)]
        = [TxAction.initRadio, TxAction.configRadio, TxAction.initAdc,
            TxAction.espErrorAbort]
    ∧ adc_read_all [some 100] = some [100]
    ∧ (tx_app_main true true [some 100]).getLast? = some TxAction.sleep :=
  ⟨by decide, c9_fault_suspension.2.2.1 [none] (by decide), by decide,
    c9_fault_suspension.2.2.2.1 [some 100] [100] (by decide)⟩

/-- Claim C9, counterexample to the claim as stated: with the radio up
but the first sample read failing, `ESP_ERROR_CHECK` aborts the process
— the cycle never reaches the suspension action, so this transmitter
fault does not route to the suspension path. -/
theorem c9_counterexample :
    TxAction.sleep ∉ tx_app_main true true [(none : Option Int)]
    ∧ (tx_app_main true true [(none : Option Int)]).getLast?
        = some TxAction.espErrorAbort := by
  exact ⟨by decide, by decide⟩
